import Mathlib

/-!
Verification of the memcached-engines repository: a shallow embedding of the
STL example engine (stl_engine.cc / stl_engine.h) and of the persistent
engine with its SQLite-backed write-behind and read-through workers
(sqlite.cc / sqlite.h), together with theorems settling the specified
behavioural claims.

Byte strings (C++ std::string over char) are modelled as List Nat; machine
size_t arithmetic is modelled as Nat with explicit wrap-around modulo 2^64.
-/

/-- Engine result codes (ENGINE_ERROR_CODE), restricted to the values the
claims mention. -/
inductive EngineCode where
  | success
  | key_enoent
  | key_eexists
  | not_stored
  | ewouldblock
  | enomem
  | e2big
  | einval
  deriving DecidableEq, Repr

/-- Store operations (ENGINE_STORE_OPERATION). -/
inductive StoreOp where
  | set
  | add
  | replace
  | append
  | prepend
  deriving DecidableEq, Repr

/-! ## STL engine (src/stl/stl_engine.h, src/stl/stl_engine.cc) -/

/-- The modulus of C size_t arithmetic (64-bit). -/
def SIZE_T_MOD : Nat := 2 ^ 64

/-- Upper bound used by std::string::resize: requests beyond max_size throw
std::length_error.  The exact libstdc++ value is irrelevant; any bound below
2^64 - 2 gives the same behaviour on the paths modelled here. -/
def STRING_MAX_SIZE : Nat := 2 ^ 62

/-- size_t subtraction a - b with unsigned wrap-around (a, b below 2^64),
written without Nat.mod so that it reduces well; sizeSub_eq_mod below
proves it equal to the (a + 2^64 - b) % 2^64 form on machine-range
inputs. -/
def sizeSub (a b : Nat) : Nat := if b ≤ a then a - b else SIZE_T_MOD - (b - a)

/-- std::string::resize: shrink or zero-pad to n bytes; none models the
length_error raised when n exceeds max_size (the process aborts). -/
def stringResize (v : List Nat) (n : Nat) : Option (List Nat) :=
  if n ≤ STRING_MAX_SIZE then some (v.take n ++ List.replicate (n - v.length) 0) else none

/-- Item of the STL engine (class Item in stl_engine.h). -/
structure Item where
  key : List Nat
  exptime : Nat
  flags : Nat
  value : List Nat
  cas : Nat
  deriving DecidableEq, Repr

/-- Item::append: self is the incoming item, other the stored one.  The code
copies the stored value, resizes it to length - 2 (size_t arithmetic, no
guard), then appends the incoming value. -/
def Item.append (self other : Item) : Option Item :=
  match stringResize other.value (sizeSub other.value.length 2) with
  | some val => some { self with value := val ++ self.value }
  | none => none

/-- Item::prepend: self is the incoming item, other the stored one.  The
code resizes the incoming value to length - 2 (size_t arithmetic, no
guard), then appends the stored value after it. -/
def Item.prepend (self other : Item) : Option Item :=
  match stringResize self.value (sizeSub self.value.length 2) with
  | some v => some { self with value := v ++ other.value }
  | none => none

/-- The STL engine cache: std::map from key to Item, viewed extensionally. -/
def StlCache : Type := List Nat → Option Item

/-- The empty cache. -/
def stlEmpty : StlCache := fun _ => none

/-- cache[key] = item (insert-or-overwrite, as the map assignment does). -/
def cacheInsert (c : StlCache) (k : List Nat) (it : Item) : StlCache :=
  fun q => if q = k then some it else c q

/-- STLEngine::Store.  Returns none exactly when the append/prepend resize
aborts (unsigned underflow, unhandled length_error). -/
def STLEngine.Store (cache : StlCache) (it : Item) (operation : StoreOp) :
    Option (EngineCode × StlCache) :=
  match cache it.key with
  | none =>
    match operation with
    | .replace | .append | .prepend => some (.key_enoent, cache)
    | _ => some (.success, cacheInsert cache it.key it)
  | some stored =>
    if operation = .add then some (.not_stored, cache)
    else if it.cas ≠ 0 ∧ it.cas ≠ stored.cas then some (.key_eexists, cache)
    else
      match operation with
      | .append =>
        match Item.append it stored with
        | some it2 => some (.success, cacheInsert cache it.key it2)
        | none => none
      | .prepend =>
        match Item.prepend it stored with
        | some it2 => some (.success, cacheInsert cache it.key it2)
        | none => none
      | _ => some (.success, cacheInsert cache it.key it)

/-! ## Write-behind worker (class SQLiteWriter in src/persistent/sqlite.cc) -/

/-- Byte-wise lexicographic order of std::string keys (operator< of the
std::map used for the write queue). -/
def keyLt : List Nat → List Nat → Bool
  | _, [] => false
  | [], _ :: _ => true
  | a :: as, b :: bs =>
    if a < b then true
    else if b < a then false
    else keyLt as bs

/-- hash_item as far as the writer uses it: key, flags, exptime, value. -/
structure HItem where
  key : List Nat
  flags : Nat
  exptime : Nat
  value : List Nat
  deriving DecidableEq, Repr

/-- A row of the durable kv table: flags, exptime, hash (bound to 0), value. -/
structure DRecord where
  flags : Nat
  exptime : Nat
  hashv : Nat
  value : List Nat
  deriving DecidableEq, Repr

/-- The durable store is one row per key. -/
def Durable : Type := List Nat → Option DRecord

/-- INSERT OR REPLACE INTO kv (upsert by primary key). -/
def dUpsert (d : Durable) (k : List Nat) (r : DRecord) : Durable :=
  fun q => if q = k then some r else d q

/-- The row storeItem binds for an item (hash column bound to 0). -/
def storeRecord (it : HItem) : DRecord :=
  { flags := it.flags, exptime := it.exptime, hashv := 0, value := it.value }

/-- find in the std::map write queue (queue sorted by key, keys unique). -/
def wqLookup (k : List Nat) : List (List Nat × HItem) → Option HItem
  | [] => none
  | (k1, it) :: rest => if k = k1 then some it else wqLookup k rest

/-- queue[key] = item on the sorted association list representing the
std::map: insert at the ordered position, replacing an equal key. -/
def wqInsert (k : List Nat) (it : HItem) : List (List Nat × HItem) → List (List Nat × HItem)
  | [] => [(k, it)]
  | (k1, it1) :: rest =>
    if keyLt k k1 then (k, it) :: (k1, it1) :: rest
    else if k = k1 then (k, it) :: rest
    else (k1, it1) :: wqInsert k it rest

/-- State of the writer: the pending queue plus the trace of items whose
reference has been given back (engine release calls), in order. -/
structure WriterState where
  queue : List (List Nat × HItem)
  released : List HItem
  deriving Repr

/-- SQLiteWriter::enqueue: when the key is already queued the superseded
item is released immediately and the new item takes the map slot. -/
def writerEnqueue (st : WriterState) (it : HItem) : WriterState :=
  match wqLookup it.key st.queue with
  | some old => { queue := wqInsert it.key it st.queue, released := st.released ++ [old] }
  | none => { queue := wqInsert it.key it st.queue, released := st.released }

/-- Enqueue a sequence of items starting from the empty writer state. -/
def enqueueAll (ops : List HItem) : WriterState :=
  ops.foldl writerEnqueue { queue := [], released := [] }

/-- The drain loop of SQLiteWriter::run: repeatedly pop queue.begin()
(the smallest key) and upsert that item into the durable table. -/
def writerDrain : List (List Nat × HItem) → Durable → Durable
  | [], d => d
  | (_, it) :: rest, d => writerDrain rest (dUpsert d it.key (storeRecord it))

/-- The keys in the order the drain loop upserts them. -/
def writerDrainTrace : List (List Nat × HItem) → List (List Nat)
  | [] => []
  | (_, it) :: rest => it.key :: writerDrainTrace rest

/-- The last item enqueued for a key in a sequence of enqueue operations
(statement vocabulary for the supersession claims). -/
def lastEnqueued (ops : List HItem) (k : List Nat) : Option HItem :=
  (ops.filter (fun it => it.key = k)).getLast?

/-- Stated from the spec wording for the drain-order claim: the distinct
keys of a sequence of enqueues in first-insertion order. -/
def fifoDistinctKeyOrder (ops : List HItem) : List (List Nat) :=
  ops.foldl (fun acc it => if it.key ∈ acc then acc else acc ++ [it.key]) []

/-! ## Read-through worker (class SQLiteReader in src/persistent/sqlite.cc) -/

/-- hash_item as the coordinator and reader see it. -/
structure PItem where
  key : List Nat
  flags : Nat
  exptime : Nat
  value : List Nat
  cas : Nat
  deriving DecidableEq, Repr

/-- The in-memory item store of the persistent engine, viewed extensionally. -/
def PCache : Type := List Nat → Option PItem

/-- The empty item store. -/
def pcEmpty : PCache := fun _ => none

/-- Link a fresh item into the hash table. -/
def pcInsert (c : PCache) (k : List Nat) (it : PItem) : PCache :=
  fun q => if q = k then some it else c q

/-- Modelled from the spec: item_unlink (items.c is not in the sources)
removes the item for the key from the hash index. -/
def pcErase (c : PCache) (k : List Nat) : PCache :=
  fun q => if q = k then none else c q

/-- Cookie (caller token): an opaque const void pointer, modelled as Nat. -/
def Cookie : Type := Nat

/-- find in the std::map read queue keyed by cookie. -/
def rqLookup (cookie : Nat) : List (Nat × List Nat) → Option (List Nat)
  | [] => none
  | (c1, k1) :: rest => if cookie = c1 then some k1 else rqLookup cookie rest

/-- queue[cookie] = key on the sorted association list representing the
std::map of SQLiteReader (one entry per cookie). -/
def rqInsert (cookie : Nat) (k : List Nat) : List (Nat × List Nat) → List (Nat × List Nat)
  | [] => [(cookie, k)]
  | (c1, k1) :: rest =>
    if cookie < c1 then (cookie, k) :: (c1, k1) :: rest
    else if cookie = c1 then (cookie, k) :: rest
    else (c1, k1) :: rqInsert cookie k rest

/-- SQLiteReader::enqueue (reached through sqlite_io_get_item). -/
def readerEnqueue (q : List (Nat × List Nat)) (cookie : Nat) (k : List Nat) :
    List (Nat × List Nat) :=
  rqInsert cookie k q

/-- Modelled from the spec: store_item with OPERATION_ADD (items.c is not in
the sources) links the item only when the key is absent; the result of this
store is discarded by createItem. -/
def storeAddIgnored (cache : PCache) (k : List Nat) (r : DRecord) : PCache :=
  match cache k with
  | some _ => cache
  | none => pcInsert cache k { key := k, flags := r.flags, exptime := r.exptime,
                               value := r.value, cas := 0 }

/-- The drain loop of SQLiteReader::run: pop one (cookie, key) entry, fetch
the durable row, on a hit allocate and ADD the item (allocation may fail,
abstracted by allocOk; the ADD result is ignored), then call
notify_io_complete exactly here with SUCCESS when readItem returned true and
KEY_ENOENT otherwise.  Returns the final cache and the notification trace. -/
def readerDrain (durable : Durable) (allocOk : List Nat → Bool) :
    List (Nat × List Nat) → PCache → PCache × List (Nat × EngineCode)
  | [], cache => (cache, [])
  | (cookie, k) :: rest, cache =>
    match durable k with
    | some r =>
      if allocOk k then
        let step := readerDrain durable allocOk rest (storeAddIgnored cache k r)
        (step.1, (cookie, .success) :: step.2)
      else
        let step := readerDrain durable allocOk rest cache
        (step.1, (cookie, .key_enoent) :: step.2)
    | none =>
      let step := readerDrain durable allocOk rest cache
      (step.1, (cookie, .key_enoent) :: step.2)

/-! ## Engine coordinator (src/persistent/sqlite.h, second part) -/

/-- Modelled from the spec: item_get (items.c is not in the sources) is the
hashed lookup returning the item for the key or a miss. -/
def item_get (cache : PCache) (k : List Nat) : Option PItem :=
  cache k

/-- persistent_get: a hit returns the item with SUCCESS; a miss enqueues a
pending read for (cookie, key) through sqlite_io_get_item and returns
EWOULDBLOCK. -/
def persistent_get (cache : PCache) (rq : List (Nat × List Nat))
    (cookie : Nat) (k : List Nat) :
    Option PItem × EngineCode × List (Nat × List Nat) :=
  match item_get cache k with
  | some it => (some it, .success, rq)
  | none => (none, .ewouldblock, readerEnqueue rq cookie k)

/-- persistent_item_delete: calls persistent_get; on SUCCESS unlinks and
releases the item; returns ENGINE_SUCCESS unconditionally.  The cas
argument is never read. -/
def persistent_item_delete (cache : PCache) (rq : List (Nat × List Nat))
    (cookie : Nat) (k : List Nat) (cas : Nat) :
    EngineCode × PCache × List (Nat × List Nat) :=
  match persistent_get cache rq cookie k with
  | (some _, .success, rq2) => (.success, pcErase cache k, rq2)
  | (_, _, rq2) => (.success, cache, rq2)

/-! ## persistent_arithmetic (src/persistent/sqlite.h) -/

/-- The decimal text snprintf("%llu\r\n", n) produces. -/
def decimalText (n : Nat) : List Nat :=
  ((Nat.toDigits 10 n).map Char.toNat) ++ [13, 10]

/-- Modelled from the spec: the stored value is parsed as decimal integer
text; a non-numeric value is a parse failure. -/
def parseDecimal (v : List Nat) : Option Nat :=
  let ds := v.takeWhile (fun b => decide (48 ≤ b) && decide (b ≤ 57))
  if ds.isEmpty then none
  else some (ds.foldl (fun n b => 10 * n + (b - 48)) 0)

/-- Outcome of an arithmetic call: result code, the returned counter value
and cas, and the item stored on the create path (for inspecting the bytes
persisted). -/
structure ArithOut where
  code : EngineCode
  result : Option Nat
  cas : Option Nat
  stored : Option PItem
  deriving DecidableEq, Repr

/-- Modelled from the spec: add_delta (items.c is not in the sources) parses
the stored value, applies the delta, re-stores the decimal text and yields
the fresh cas assigned by the store. -/
def add_delta (it : PItem) (increment : Bool) (delta : Nat) (newCas : Nat) : ArithOut :=
  match parseDecimal it.value with
  | none => { code := .einval, result := none, cas := none, stored := none }
  | some n =>
    let r := if increment then n + delta else n - delta
    { code := .success, result := some r, cas := some newCas,
      stored := some { it with value := decimalText r, cas := newCas } }

/-- What one invocation of persistent_arithmetic observes of the
concurrently mutated cache: the item_get outcome, whether item_alloc
succeeds, whether the ADD store loses a race (KEY_EEXISTS), and the cas a
successful store would assign. -/
structure ArithEnv where
  cached : Option PItem
  allocOk : Bool
  addRaces : Bool
  newCas : Nat
  deriving DecidableEq, Repr

/-- persistent_arithmetic, one list entry per (recursive) invocation: a hit
delegates to add_delta; a miss without create is KEY_ENOENT; allocation
failure is ENOMEM; a lost ADD race releases the item and recursively
re-invokes the whole operation; a won ADD returns initial and the new cas.
Also counts the invocations consumed; an exhausted list means the recursion
is still running after that many invocations. -/
def persistent_arithmetic (key : List Nat) (exptime : Nat)
    (create increment : Bool) (delta initial : Nat) :
    List ArithEnv → Option ArithOut × Nat
  | [] => (none, 0)
  | env :: rest =>
    match env.cached with
    | some it => (some (add_delta it increment delta env.newCas), 1)
    | none =>
      if create = false then
        (some { code := .key_enoent, result := none, cas := none, stored := none }, 1)
      else if env.allocOk = false then
        (some { code := .enomem, result := none, cas := none, stored := none }, 1)
      else if env.addRaces then
        let r := persistent_arithmetic key exptime create increment delta initial rest
        (r.1, r.2 + 1)
      else
        (some { code := .success, result := some initial, cas := some env.newCas,
                stored := some { key := key, flags := 0, exptime := exptime,
                                 value := decimalText initial, cas := env.newCas } }, 1)

/-! ## initalize_configuration (src/persistent/sqlite.h) -/

/-- initalize_configuration: for a non-null configuration string the result
of parse_config is assigned to ret, but the function returns ENGINE_SUCCESS
regardless. -/
def initalize_configuration (cfg_str : Option (List Nat))
    (parse_config : List Nat → EngineCode) : EngineCode :=
  let ret := match cfg_str with
             | some s => parse_config s
             | none => EngineCode.success
  EngineCode.success

/-! ## Helper lemmas: the lexicographic key order -/

theorem keyLt_irrefl : ∀ a : List Nat, keyLt a a = false
  | [] => rfl
  | a0 :: as => by
    simp only [keyLt, Nat.lt_irrefl, if_false]
    exact keyLt_irrefl as

theorem keyLt_trans : ∀ {a b c : List Nat},
    keyLt a b = true → keyLt b c = true → keyLt a c = true
  | [], _ :: _, _ :: _, _, _ => rfl
  | [], [], _, hab, _ => by simp [keyLt] at hab
  | [], _ :: _, [], _, hbc => by simp [keyLt] at hbc
  | _ :: _, [], _, hab, _ => by simp [keyLt] at hab
  | _ :: _, _ :: _, [], _, hbc => by simp [keyLt] at hbc
  | a0 :: as, b0 :: bs, c0 :: cs, hab, hbc => by
    simp only [keyLt] at hab hbc ⊢
    by_cases h1 : a0 < b0
    · by_cases h2 : b0 < c0
      · simp [Nat.lt_trans h1 h2]
      · by_cases h3 : c0 < b0
        · simp [h2, h3] at hbc
        · have hbc0 : b0 = c0 := by omega
          subst hbc0
          simp [h1]
    · by_cases h4 : b0 < a0
      · simp [h1, h4] at hab
      · have hab0 : a0 = b0 := by omega
        subst hab0
        simp only [if_neg h1, if_neg h4] at hab
        by_cases h2 : a0 < c0
        · simp [h2]
        · by_cases h3 : c0 < a0
          · simp [h2, h3] at hbc
          · simp only [if_neg h2, if_neg h3] at hbc ⊢
            exact keyLt_trans hab hbc

theorem keyLt_conn : ∀ {a b : List Nat},
    keyLt a b = false → a ≠ b → keyLt b a = true
  | [], [], _, hne => absurd rfl hne
  | [], _ :: _, hab, _ => by simp [keyLt] at hab
  | _ :: _, [], _, _ => rfl
  | a0 :: as, b0 :: bs, hab, hne => by
    simp only [keyLt] at hab ⊢
    by_cases h1 : a0 < b0
    · simp [h1] at hab
    · by_cases h2 : b0 < a0
      · simp [h2]
      · have hab0 : a0 = b0 := by omega
        subst hab0
        simp only [if_neg h1, if_neg h2] at hab ⊢
        exact keyLt_conn hab (fun h => hne (by rw [h]))

theorem keyLt_ne {a b : List Nat} (h : keyLt a b = true) : a ≠ b := by
  intro he
  subst he
  rw [keyLt_irrefl] at h
  exact Bool.false_ne_true h

/-! ## Helper lemmas: the write queue as a sorted association map -/

theorem wqLookup_wqInsert (k k2 : List Nat) (it : HItem) :
    ∀ q : List (List Nat × HItem),
      wqLookup k2 (wqInsert k it q) = if k2 = k then some it else wqLookup k2 q
  | [] => by simp [wqInsert, wqLookup]
  | (k1, it1) :: rest => by
    simp only [wqInsert]
    by_cases h1 : keyLt k k1
    · simp [h1, wqLookup]
    · by_cases h2 : k = k1
      · subst h2
        simp only [if_neg h1, if_pos rfl, wqLookup]
        by_cases h3 : k2 = k <;> simp [h3]
      · simp only [if_neg h1, if_neg h2, wqLookup]
        by_cases h3 : k2 = k1
        · subst h3
          simp [Ne.symm h2]
        · simp [h3, wqLookup_wqInsert k k2 it rest]

theorem mem_wqInsert {e : List Nat × HItem} {k : List Nat} {it : HItem} :
    ∀ {q : List (List Nat × HItem)}, e ∈ wqInsert k it q → e = (k, it) ∨ e ∈ q
  | [], h => by simpa [wqInsert] using h
  | (k1, it1) :: rest, h => by
    simp only [wqInsert] at h
    by_cases h1 : keyLt k k1
    · simp only [if_pos h1, List.mem_cons] at h
      rcases h with h | h | h
      · exact Or.inl h
      · exact Or.inr (List.mem_cons.mpr (Or.inl h))
      · exact Or.inr (List.mem_cons.mpr (Or.inr h))
    · by_cases h2 : k = k1
      · simp only [if_neg h1, if_pos h2, List.mem_cons] at h
        rcases h with h | h
        · exact Or.inl h
        · exact Or.inr (List.mem_cons.mpr (Or.inr h))
      · simp only [if_neg h1, if_neg h2, List.mem_cons] at h
        rcases h with h | h
        · exact Or.inr (List.mem_cons.mpr (Or.inl h))
        · rcases mem_wqInsert h with h3 | h3
          · exact Or.inl h3
          · exact Or.inr (List.mem_cons.mpr (Or.inr h3))

theorem pairwise_wqInsert (k : List Nat) (it : HItem) :
    ∀ {q : List (List Nat × HItem)},
      List.Pairwise (fun a b => keyLt a.1 b.1 = true) q →
      List.Pairwise (fun a b => keyLt a.1 b.1 = true) (wqInsert k it q)
  | [], _ => by simp [wqInsert]
  | (k1, it1) :: rest, hp => by
    obtain ⟨hhead, htail⟩ := List.pairwise_cons.mp hp
    simp only [wqInsert]
    by_cases h1 : keyLt k k1
    · simp only [if_pos h1]
      refine List.pairwise_cons.mpr ⟨?_, hp⟩
      intro e he
      rcases List.mem_cons.mp he with h | h
      · subst h; exact h1
      · exact keyLt_trans h1 (hhead e h)
    · by_cases h2 : k = k1
      · subst h2
        simp only [if_neg h1, if_pos rfl]
        exact List.pairwise_cons.mpr ⟨hhead, htail⟩
      · simp only [if_neg h1, if_neg h2]
        have h1f : keyLt k k1 = false := by
          revert h1; cases keyLt k k1 <;> simp
        refine List.pairwise_cons.mpr ⟨?_, pairwise_wqInsert k it htail⟩
        intro e he
        rcases mem_wqInsert he with h | h
        · subst h
          exact keyLt_conn h1f h2
        · exact hhead e h

theorem writerEnqueue_queue (st : WriterState) (it : HItem) :
    (writerEnqueue st it).queue = wqInsert it.key it st.queue := by
  unfold writerEnqueue
  cases wqLookup it.key st.queue <;> rfl

theorem pairwise_foldl_enqueue :
    ∀ (ops : List HItem) (st : WriterState),
      List.Pairwise (fun a b => keyLt a.1 b.1 = true) st.queue →
      List.Pairwise (fun a b => keyLt a.1 b.1 = true) (ops.foldl writerEnqueue st).queue
  | [], _, h => h
  | it :: ops, st, h => by
    rw [List.foldl_cons]
    exact pairwise_foldl_enqueue ops (writerEnqueue st it)
      (by rw [writerEnqueue_queue]; exact pairwise_wqInsert it.key it h)

theorem keyfix_foldl_enqueue :
    ∀ (ops : List HItem) (st : WriterState),
      (∀ e ∈ st.queue, (e : List Nat × HItem).2.key = e.1) →
      ∀ e ∈ (ops.foldl writerEnqueue st).queue, (e : List Nat × HItem).2.key = e.1
  | [], _, h => h
  | it :: ops, st, h => by
    rw [List.foldl_cons]
    refine keyfix_foldl_enqueue ops (writerEnqueue st it) ?_
    intro e he
    rw [writerEnqueue_queue] at he
    rcases mem_wqInsert he with h1 | h1
    · subst h1; rfl
    · exact h e h1

theorem getLast?_cons_or {α : Type} (a : α) :
    ∀ l : List α, (a :: l).getLast? = l.getLast?.or (some a)
  | [] => rfl
  | b :: l => by
    rw [List.getLast?_cons_cons, getLast?_cons_or b l, Option.or_assoc]
    rfl

theorem lastEnqueued_cons (it : HItem) (ops : List HItem) (k : List Nat) :
    lastEnqueued (it :: ops) k =
      if it.key = k then (lastEnqueued ops k).or (some it) else lastEnqueued ops k := by
  unfold lastEnqueued
  by_cases h : it.key = k
  · rw [List.filter_cons_of_pos (by simp [h]), getLast?_cons_or, if_pos h]
  · rw [List.filter_cons_of_neg (by simp [h]), if_neg h]

theorem wqLookup_foldl_enqueue :
    ∀ (ops : List HItem) (st : WriterState) (k : List Nat),
      wqLookup k (ops.foldl writerEnqueue st).queue =
        (lastEnqueued ops k).or (wqLookup k st.queue)
  | [], st, k => by
    simp [lastEnqueued, List.filter_nil, Option.none_or]
  | it :: ops, st, k => by
    rw [List.foldl_cons, wqLookup_foldl_enqueue ops (writerEnqueue st it) k,
        writerEnqueue_queue, wqLookup_wqInsert, lastEnqueued_cons]
    by_cases h : it.key = k
    · rw [if_pos h, if_pos (h ▸ rfl), Option.or_assoc]
      cases lastEnqueued ops k <;> rfl
    · rw [if_neg h, if_neg (fun hk => h hk.symm)]

theorem wqLookup_mem {k : List Nat} {it : HItem} :
    ∀ {q : List (List Nat × HItem)}, wqLookup k q = some it → (k, it) ∈ q
  | [], h => by simp [wqLookup] at h
  | (k1, it1) :: rest, h => by
    simp only [wqLookup] at h
    by_cases h1 : k = k1
    · subst h1
      rw [if_pos rfl] at h
      cases h
      exact List.mem_cons_self _ _
    · rw [if_neg h1] at h
      exact List.mem_cons.mpr (Or.inr (wqLookup_mem h))

theorem wqLookup_eq_none_of_not_mem {k : List Nat} :
    ∀ {q : List (List Nat × HItem)},
      (∀ e ∈ q, (e : List Nat × HItem).1 ≠ k) → wqLookup k q = none
  | [], _ => rfl
  | (k1, it1) :: rest, h => by
    simp only [wqLookup]
    rw [if_neg (fun he => h (k1, it1) (List.mem_cons_self _ _) he.symm),
        wqLookup_eq_none_of_not_mem (fun e he => h e (List.mem_cons.mpr (Or.inr he)))]

theorem writerDrain_char :
    ∀ (q : List (List Nat × HItem)) (d : Durable) (k : List Nat),
      List.Pairwise (fun a b => keyLt a.1 b.1 = true) q →
      (∀ e ∈ q, (e : List Nat × HItem).2.key = e.1) →
      writerDrain q d k =
        match wqLookup k q with
        | some it => some (storeRecord it)
        | none => d k
  | [], d, k, _, _ => rfl
  | (k0, it0) :: rest, d, k, hp, hf => by
    obtain ⟨hhead, htail⟩ := List.pairwise_cons.mp hp
    have hk0 : it0.key = k0 := hf (k0, it0) (List.mem_cons_self _ _)
    simp only [writerDrain, wqLookup]
    rw [writerDrain_char rest _ k htail (fun e he => hf e (List.mem_cons.mpr (Or.inr he)))]
    by_cases h : k = k0
    · subst h
      have hnone : wqLookup k rest = none := by
        refine wqLookup_eq_none_of_not_mem ?_
        intro e he hek
        have := hhead e he
        rw [hek] at this
        exact keyLt_ne this rfl
      rw [hnone, if_pos rfl]
      simp [dUpsert, hk0]
    · rw [if_neg h]
      cases hlk : wqLookup k rest
      · simp [dUpsert, hk0, h]
      · rfl

theorem wqLookup_isSome_of_mem {k : List Nat} :
    ∀ {q : List (List Nat × HItem)} {it : HItem},
      (k, it) ∈ q → (wqLookup k q).isSome = true
  | [], it, h => by simp at h
  | (k1, it1) :: rest, it, h => by
    simp only [wqLookup]
    by_cases h1 : k = k1
    · rw [if_pos h1]; rfl
    · rw [if_neg h1]
      rcases List.mem_cons.mp h with h2 | h2
      · exact absurd (congrArg Prod.fst h2) h1
      · exact wqLookup_isSome_of_mem h2

theorem writerDrainTrace_eq_map :
    ∀ q : List (List Nat × HItem),
      writerDrainTrace q = q.map (fun e => e.2.key)
  | [] => rfl
  | (k, it) :: rest => by
    simp [writerDrainTrace, writerDrainTrace_eq_map rest]

/-- Claim C1: the write-behind queue holds at most one pending write per
key; enqueueing an item whose key is already queued replaces the queued
item, releasing the superseded reference immediately; after the worker
drains, the durable row for a key is the last enqueued value for that key,
never an earlier one. -/
theorem writer_queue_supersession_invariant :
    ∀ ops : List HItem,
      (((enqueueAll ops).queue.map Prod.fst).Nodup) ∧
      (∀ k, wqLookup k (enqueueAll ops).queue = lastEnqueued ops k) ∧
      (∀ it old, wqLookup it.key (enqueueAll ops).queue = some old →
        (writerEnqueue (enqueueAll ops) it).released =
          (enqueueAll ops).released ++ [old] ∧
        wqLookup it.key (writerEnqueue (enqueueAll ops) it).queue = some it) ∧
      (∀ (d : Durable) (k : List Nat),
        writerDrain (enqueueAll ops).queue d k =
          match lastEnqueued ops k with
          | some it => some (storeRecord it)
          | none => d k) := by
  intro ops
  have hP : List.Pairwise (fun a b => keyLt a.1 b.1 = true) (enqueueAll ops).queue :=
    pairwise_foldl_enqueue ops { queue := [], released := [] } List.Pairwise.nil
  have hF : ∀ e ∈ (enqueueAll ops).queue, (e : List Nat × HItem).2.key = e.1 :=
    keyfix_foldl_enqueue ops { queue := [], released := [] }
      (by intro e he; simp at he)
  have hlook : ∀ k, wqLookup k (enqueueAll ops).queue = lastEnqueued ops k := by
    intro k
    rw [enqueueAll, wqLookup_foldl_enqueue]
    exact Option.or_none
  refine ⟨?_, hlook, ?_, ?_⟩
  · exact List.pairwise_map.mpr (hP.imp fun h => keyLt_ne h)
  · intro it old hlk
    constructor
    · simp [writerEnqueue, hlk]
    · rw [writerEnqueue_queue, wqLookup_wqInsert, if_pos rfl]
  · intro d k
    rw [writerDrain_char _ _ _ hP hF, hlook k]

/-- Claim C1 witness: two writes to key [107] leave one queued entry
holding the second value, the superseding third enqueue releases the
second immediately and takes its place. -/
theorem writer_queue_supersession_invariant_witness :
    (writerEnqueue (enqueueAll
        [{ key := [107], flags := 0, exptime := 0, value := [1] },
         { key := [107], flags := 0, exptime := 0, value := [2] }])
        { key := [107], flags := 0, exptime := 0, value := [3] }).released =
      (enqueueAll
        [{ key := [107], flags := 0, exptime := 0, value := [1] },
         { key := [107], flags := 0, exptime := 0, value := [2] }]).released ++
        [{ key := [107], flags := 0, exptime := 0, value := [2] }] ∧
    wqLookup [107] (writerEnqueue (enqueueAll
        [{ key := [107], flags := 0, exptime := 0, value := [1] },
         { key := [107], flags := 0, exptime := 0, value := [2] }])
        { key := [107], flags := 0, exptime := 0, value := [3] }).queue =
      some { key := [107], flags := 0, exptime := 0, value := [3] } :=
  (writer_queue_supersession_invariant
      [{ key := [107], flags := 0, exptime := 0, value := [1] },
       { key := [107], flags := 0, exptime := 0, value := [2] }]).2.2.1
    { key := [107], flags := 0, exptime := 0, value := [3] }
    { key := [107], flags := 0, exptime := 0, value := [2] }
    (by decide)

/-- Claim C5 counterexample: enqueueing key [98] then key [97] makes the
drain loop upsert [97] first, so the persist order is not the
first-insertion (FIFO) order of distinct keys. -/
theorem writer_drain_order_cex :
    writerDrainTrace (enqueueAll
      [{ key := [98], flags := 0, exptime := 0, value := [1] },
       { key := [97], flags := 0, exptime := 0, value := [2] }]).queue = [[97], [98]] ∧
    fifoDistinctKeyOrder
      [{ key := [98], flags := 0, exptime := 0, value := [1] },
       { key := [97], flags := 0, exptime := 0, value := [2] }] = [[98], [97]] ∧
    ([[97], [98]] : List (List Nat)) ≠ [[98], [97]] := by
  refine ⟨by decide, by decide, by decide⟩

/-- Claim C5 amended: the write-behind worker persists the pending entries
in strictly ascending lexicographic key order (the iteration order of the
std::map queue), one entry per distinct enqueued key — not in the FIFO
order of first insertion. -/
theorem writer_drain_sorted_order :
    ∀ ops : List HItem,
      List.Pairwise (fun a b => keyLt a b = true)
        (writerDrainTrace (enqueueAll ops).queue) ∧
      (∀ k, k ∈ writerDrainTrace (enqueueAll ops).queue ↔ k ∈ ops.map HItem.key) := by
  intro ops
  have hP : List.Pairwise (fun a b => keyLt a.1 b.1 = true) (enqueueAll ops).queue :=
    pairwise_foldl_enqueue ops { queue := [], released := [] } List.Pairwise.nil
  have hF : ∀ e ∈ (enqueueAll ops).queue, (e : List Nat × HItem).2.key = e.1 :=
    keyfix_foldl_enqueue ops { queue := [], released := [] }
      (by intro e he; simp at he)
  have hmap : (enqueueAll ops).queue.map (fun e => e.2.key) =
      (enqueueAll ops).queue.map Prod.fst :=
    List.map_congr_left hF
  constructor
  · rw [writerDrainTrace_eq_map, hmap]
    exact List.pairwise_map.mpr (hP.imp fun h => h)
  · intro k
    rw [writerDrainTrace_eq_map, hmap]
    have hlook : wqLookup k (enqueueAll ops).queue = lastEnqueued ops k := by
      rw [enqueueAll, wqLookup_foldl_enqueue]
      exact Option.or_none
    constructor
    · intro hk
      obtain ⟨e, he, hek⟩ := List.mem_map.mp hk
      obtain ⟨k1, it1⟩ := e
      have hek1 : k1 = k := hek
      rw [hek1] at he
      have hsome := wqLookup_isSome_of_mem (q := (enqueueAll ops).queue) he
      rw [hlook] at hsome
      obtain ⟨it, hit⟩ := Option.isSome_iff_exists.mp hsome
      have hmemf : it ∈ ops.filter (fun i => i.key = k) := by
        unfold lastEnqueued at hit
        obtain ⟨hne, heq⟩ := List.mem_getLast?_eq_getLast (Option.mem_def.mpr hit)
        rw [heq]
        exact List.getLast_mem hne
      have hmem := List.mem_filter.mp hmemf
      exact List.mem_map.mpr ⟨it, hmem.1, by simpa using hmem.2⟩
    · intro hk
      obtain ⟨it, hit, hitk⟩ := List.mem_map.mp hk
      have hne : lastEnqueued ops k ≠ none := by
        unfold lastEnqueued
        rw [Ne, List.getLast?_eq_none_iff, List.filter_eq_nil_iff]
        push_neg
        exact ⟨it, hit, by simpa using hitk⟩
      rw [← hlook] at hne
      obtain ⟨it2, hit2⟩ := Option.ne_none_iff_exists'.mp hne
      exact List.mem_map.mpr ⟨(k, it2), wqLookup_mem hit2, rfl⟩

/-! ## Read-through worker and coordinator claims -/

theorem rqLookup_rqInsert (cookie : Nat) (k : List Nat) :
    ∀ q : List (Nat × List Nat), rqLookup cookie (rqInsert cookie k q) = some k
  | [] => by simp [rqInsert, rqLookup]
  | (c1, k1) :: rest => by
    simp only [rqInsert]
    by_cases h1 : cookie < c1
    · simp [h1, rqLookup]
    · by_cases h2 : cookie = c1
      · simp [h1, h2, rqLookup]
      · simp only [if_neg h1, if_neg h2, rqLookup]
        exact rqLookup_rqInsert cookie k rest

/-- Claim C2 counterexample: the durable table has a row for key [107]
(value [9]) and the cache already holds [107] with value [7].  Draining the
pending read notifies SUCCESS although the fetched item is not materialized
(the cache keeps value [7]); the claim requires key-not-found whenever the
fetched item was not materialized. -/
theorem reader_notify_success_without_materialize_cex :
    (readerDrain
        (dUpsert (fun _ => none) [107] { flags := 0, exptime := 0, hashv := 0, value := [9] })
        (fun _ => true) [(5, [107])]
        (pcInsert pcEmpty [107]
          { key := [107], flags := 0, exptime := 0, value := [7], cas := 0 })).2
      = [(5, EngineCode.success)] ∧
    (readerDrain
        (dUpsert (fun _ => none) [107] { flags := 0, exptime := 0, hashv := 0, value := [9] })
        (fun _ => true) [(5, [107])]
        (pcInsert pcEmpty [107]
          { key := [107], flags := 0, exptime := 0, value := [7], cas := 0 })).1 [107]
      = some { key := [107], flags := 0, exptime := 0, value := [7], cas := 0 } ∧
    ([7] : List Nat) ≠ [9] :=
  ⟨by decide, by decide, by decide⟩

/-- Claim C2 amended: draining the read queue emits exactly one
notification per pending entry, in drain order, keyed by the entry cookie;
the outcome is SUCCESS exactly when the durable fetch found the key and the
item allocation succeeded (the result of the ADD store being discarded),
and KEY_ENOENT otherwise.  No entry is resumed zero times or twice. -/
theorem reader_drain_notifies_exactly_once :
    ∀ (durable : Durable) (allocOk : List Nat → Bool)
      (q : List (Nat × List Nat)) (cache : PCache),
      (readerDrain durable allocOk q cache).2 =
        q.map (fun e => (e.1,
          if (durable e.2).isSome && allocOk e.2 then EngineCode.success
          else EngineCode.key_enoent))
  | durable, allocOk, [], cache => rfl
  | durable, allocOk, (cookie, k) :: rest, cache => by
    simp only [readerDrain, List.map_cons]
    cases hd : durable k with
    | some r =>
      by_cases ha : allocOk k
      · simp [hd, ha, reader_drain_notifies_exactly_once durable allocOk rest]
      · simp [hd, ha, reader_drain_notifies_exactly_once durable allocOk rest]
    | none =>
      simp [hd, reader_drain_notifies_exactly_once durable allocOk rest]

/-- Claim C3: a get that hits the in-memory store returns the item with
SUCCESS and leaves the read queue alone; a miss enqueues a pending read for
(cookie, key) and returns EWOULDBLOCK. -/
theorem persistent_get_hit_miss :
    ∀ (cache : PCache) (rq : List (Nat × List Nat)) (cookie : Nat) (k : List Nat),
      (∀ it, item_get cache k = some it →
        persistent_get cache rq cookie k = (some it, .success, rq)) ∧
      (item_get cache k = none →
        persistent_get cache rq cookie k =
          (none, .ewouldblock, readerEnqueue rq cookie k) ∧
        rqLookup cookie (readerEnqueue rq cookie k) = some k) := by
  intro cache rq cookie k
  constructor
  · intro it hit
    simp [persistent_get, hit]
  · intro hmiss
    exact ⟨by simp [persistent_get, hmiss], rqLookup_rqInsert cookie k rq⟩

/-- Claim C3 witness: a hit on key [107] and a miss on the empty store. -/
theorem persistent_get_hit_miss_witness :
    persistent_get
        (pcInsert pcEmpty [107]
          { key := [107], flags := 0, exptime := 0, value := [7], cas := 0 }) [] 3 [107] =
      (some { key := [107], flags := 0, exptime := 0, value := [7], cas := 0 }, .success, []) ∧
    persistent_get pcEmpty [] 3 [107] = (none, .ewouldblock, [(3, [107])]) :=
  ⟨(persistent_get_hit_miss
      (pcInsert pcEmpty [107]
        { key := [107], flags := 0, exptime := 0, value := [7], cas := 0 }) [] 3 [107]).1
      { key := [107], flags := 0, exptime := 0, value := [7], cas := 0 } rfl,
   ((persistent_get_hit_miss pcEmpty [] 3 [107]).2 rfl).1⟩

/-- Claim C4 counterexample: deleting a key from the empty store returns
SUCCESS (the claim requires KEY_ENOENT) and, as a side effect, enqueues a
pending read-through request for the deleting caller. -/
theorem persistent_delete_absent_cex :
    (persistent_item_delete pcEmpty [] 1 [107] 0).1 = EngineCode.success ∧
    EngineCode.success ≠ EngineCode.key_enoent ∧
    (persistent_item_delete pcEmpty [] 1 [107] 0).2.2 = [(1, [107])] :=
  ⟨rfl, by decide, by decide⟩

/-- Claim C4 amended: delete returns SUCCESS whether or not the key is
present.  When present, the item is unlinked and released; when absent,
the delete additionally enqueues a pending read for (cookie, key) on the
read-through queue (through the persistent_get it calls) before returning
SUCCESS.  The expected-cas argument is ignored. -/
theorem persistent_delete_behavior :
    ∀ (cache : PCache) (rq : List (Nat × List Nat)) (cookie : Nat)
      (k : List Nat) (cas : Nat),
      (∀ it, cache k = some it →
        persistent_item_delete cache rq cookie k cas =
          (.success, pcErase cache k, rq)) ∧
      (cache k = none →
        persistent_item_delete cache rq cookie k cas =
          (.success, cache, readerEnqueue rq cookie k)) := by
  intro cache rq cookie k cas
  constructor
  · intro it hit
    simp [persistent_item_delete, persistent_get, item_get, hit]
  · intro hmiss
    simp [persistent_item_delete, persistent_get, item_get, hmiss]

/-- Claim C4 witness: delete of a present key erases it; delete of an
absent key leaves the cache alone and enqueues a pending read. -/
theorem persistent_delete_behavior_witness :
    persistent_item_delete
        (pcInsert pcEmpty [107]
          { key := [107], flags := 0, exptime := 0, value := [7], cas := 0 }) [] 2 [107] 9 =
      (.success,
       pcErase (pcInsert pcEmpty [107]
         { key := [107], flags := 0, exptime := 0, value := [7], cas := 0 }) [107], []) ∧
    persistent_item_delete pcEmpty [] 2 [107] 9 =
      (.success, pcEmpty, readerEnqueue [] 2 [107]) :=
  ⟨(persistent_delete_behavior
      (pcInsert pcEmpty [107]
        { key := [107], flags := 0, exptime := 0, value := [7], cas := 0 }) [] 2 [107] 9).1
      { key := [107], flags := 0, exptime := 0, value := [7], cas := 0 } rfl,
   (persistent_delete_behavior pcEmpty [] 2 [107] 9).2 rfl⟩

/-- Claim C9: the configuration-initialization step returns ENGINE_SUCCESS
for every configuration string and every parse outcome; the parse_config
result is assigned to ret but discarded. -/
theorem initalize_configuration_always_success :
    ∀ (cfg_str : Option (List Nat)) (parse_config : List Nat → EngineCode),
      initalize_configuration cfg_str parse_config = EngineCode.success := by
  intro cfg parse
  rfl

/-- Claim C7 counterexample: a schedule where the ADD store loses the race
three times in a row drives persistent_arithmetic through three recursive
invocations without completing — more than the single bounded retry the
claim allows (an initial attempt plus one retry would be at most 2). -/
theorem arith_retry_unbounded_cex :
    persistent_arithmetic [99] 0 true true 5 10
      [{ cached := none, allocOk := true, addRaces := true, newCas := 0 },
       { cached := none, allocOk := true, addRaces := true, newCas := 0 },
       { cached := none, allocOk := true, addRaces := true, newCas := 0 }] = (none, 3) ∧
    ¬(3 ≤ 2) :=
  ⟨by decide, by decide⟩

/-- Claim C7 amended: on a miss with create enabled the engine stores the
initial value as decimal text (with trailing CRLF) via an ADD store and
returns result = initial together with the cas assigned by that store; a
lost-race KEY_EEXISTS releases the item and recursively re-invokes the
whole arithmetic operation — one extra invocation per consecutive lost
race, unbounded in the length of the race streak, not a single bounded
retry; a hit delegates to add_delta; a miss without create is KEY_ENOENT. -/
theorem arith_create_race_semantics :
    ∀ (key : List Nat) (exptime : Nat) (increment : Bool) (delta initial c : Nat)
      (rest : List ArithEnv),
      (persistent_arithmetic key exptime true increment delta initial
          ({ cached := none, allocOk := true, addRaces := false, newCas := c } :: rest) =
        (some { code := .success, result := some initial, cas := some c,
                stored := some { key := key, flags := 0, exptime := exptime,
                                 value := decimalText initial, cas := c } }, 1)) ∧
      (persistent_arithmetic key exptime true increment delta initial
          ({ cached := none, allocOk := true, addRaces := true, newCas := c } :: rest) =
        ((persistent_arithmetic key exptime true increment delta initial rest).1,
         (persistent_arithmetic key exptime true increment delta initial rest).2 + 1)) ∧
      (∀ it, persistent_arithmetic key exptime true increment delta initial
          ({ cached := some it, allocOk := true, addRaces := false, newCas := c } :: rest) =
        (some (add_delta it increment delta c), 1)) ∧
      (∀ n, persistent_arithmetic key exptime true increment delta initial
          (List.replicate n
            { cached := none, allocOk := true, addRaces := true, newCas := c }) =
        (none, n)) ∧
      (persistent_arithmetic key exptime false increment delta initial
          ({ cached := none, allocOk := true, addRaces := false, newCas := c } :: rest) =
        (some { code := .key_enoent, result := none, cas := none, stored := none }, 1)) := by
  intro key exptime increment delta initial c rest
  refine ⟨rfl, rfl, fun it => rfl, ?_, rfl⟩
  intro n
  induction n with
  | zero => rfl
  | succ m ih =>
    rw [List.replicate_succ]
    show (let r := persistent_arithmetic key exptime true increment delta initial
            (List.replicate m
              { cached := none, allocOk := true, addRaces := true, newCas := c });
          (r.1, r.2 + 1)) = (none, m + 1)
    rw [ih]

/-! ## STL engine claims: trimming, append/prepend, store semantics -/

theorem sizeSub_eq_mod (a b : Nat) (ha : a < SIZE_T_MOD) (hb : b ≤ SIZE_T_MOD) :
    sizeSub a b = (a + SIZE_T_MOD - b) % SIZE_T_MOD := by
  simp only [sizeSub, SIZE_T_MOD] at *
  split <;> omega

theorem sizeSub_of_ge {l : Nat} (h2 : 2 ≤ l) (hl : l < 2 ^ 64) :
    sizeSub l 2 = l - 2 := by
  simp only [sizeSub, SIZE_T_MOD]
  split <;> omega

theorem sizeSub_underflow {l : Nat} (h : l < 2) :
    sizeSub l 2 = 2 ^ 64 - 2 + l ∧ 2 ^ 64 - 2 ≤ sizeSub l 2 := by
  simp only [sizeSub, SIZE_T_MOD]
  split <;> omega

theorem stringResize_shrink {v : List Nat} {n : Nat}
    (hn : n ≤ v.length) (hmax : n ≤ STRING_MAX_SIZE) :
    stringResize v n = some (v.take n) := by
  simp only [stringResize, if_pos hmax, Nat.sub_eq_zero_of_le hn,
    List.replicate_zero, List.append_nil]

theorem stringResize_too_big {v : List Nat} {n : Nat} (h : STRING_MAX_SIZE < n) :
    stringResize v n = none := by
  simp [stringResize, Nat.not_le.mpr h]

theorem Item.append_underflow {self other : Item} (h : other.value.length < 2) :
    Item.append self other = none := by
  unfold Item.append
  rw [stringResize_too_big (by
    rw [(sizeSub_underflow h).1]
    simp only [STRING_MAX_SIZE]
    omega)]

theorem Item.append_eq {self other : Item} (h2 : 2 ≤ other.value.length)
    (hmax : other.value.length ≤ STRING_MAX_SIZE) :
    Item.append self other =
      some { self with value := other.value.take (other.value.length - 2) ++ self.value } := by
  unfold Item.append
  rw [sizeSub_of_ge h2 (lt_of_le_of_lt hmax (by simp only [STRING_MAX_SIZE]; omega)),
      stringResize_shrink (Nat.sub_le _ _) (le_trans (Nat.sub_le _ _) hmax)]

theorem Item.prepend_underflow {self other : Item} (h : self.value.length < 2) :
    Item.prepend self other = none := by
  unfold Item.prepend
  rw [stringResize_too_big (by
    rw [(sizeSub_underflow h).1]
    simp only [STRING_MAX_SIZE]
    omega)]

theorem Item.prepend_eq {self other : Item} (h2 : 2 ≤ self.value.length)
    (hmax : self.value.length ≤ STRING_MAX_SIZE) :
    Item.prepend self other =
      some { self with value := self.value.take (self.value.length - 2) ++ other.value } := by
  unfold Item.prepend
  rw [sizeSub_of_ge h2 (lt_of_le_of_lt hmax (by simp only [STRING_MAX_SIZE]; omega)),
      stringResize_shrink (Nat.sub_le _ _) (le_trans (Nat.sub_le _ _) hmax)]

/-- Claim C10: the length-minus-2 trim in Item::append trims the existing
value and in Item::prepend trims the incoming value.  When the trimmed
value is shorter than 2 bytes the unsigned subtraction wraps to at least
2^64 - 2, an astronomic resize request nothing guards against, and the
operation aborts; when it is at least 2 bytes long the subtraction is exact
and the error branch is unreachable. -/
theorem append_prepend_trim_underflow :
    ∀ self other : Item,
      (other.value.length < 2 →
        SIZE_T_MOD - 2 ≤ sizeSub other.value.length 2 ∧
        Item.append self other = none) ∧
      (2 ≤ other.value.length → other.value.length ≤ STRING_MAX_SIZE →
        sizeSub other.value.length 2 = other.value.length - 2 ∧
        Item.append self other =
          some { self with
                 value := other.value.take (other.value.length - 2) ++ self.value }) ∧
      (self.value.length < 2 →
        SIZE_T_MOD - 2 ≤ sizeSub self.value.length 2 ∧
        Item.prepend self other = none) ∧
      (2 ≤ self.value.length → self.value.length ≤ STRING_MAX_SIZE →
        sizeSub self.value.length 2 = self.value.length - 2 ∧
        Item.prepend self other =
          some { self with
                 value := self.value.take (self.value.length - 2) ++ other.value }) := by
  intro self other
  refine ⟨fun h => ⟨(sizeSub_underflow h).2, Item.append_underflow h⟩,
          fun h2 hmax => ⟨?_, Item.append_eq h2 hmax⟩,
          fun h => ⟨(sizeSub_underflow h).2, Item.prepend_underflow h⟩,
          fun h2 hmax => ⟨?_, Item.prepend_eq h2 hmax⟩⟩
  · exact sizeSub_of_ge h2 (lt_of_le_of_lt hmax (by simp only [STRING_MAX_SIZE]; omega))
  · exact sizeSub_of_ge h2 (lt_of_le_of_lt hmax (by simp only [STRING_MAX_SIZE]; omega))

/-- Claim C10 witness: appending onto an empty stored value aborts, while a
3-byte stored value is trimmed to its first byte. -/
theorem append_prepend_trim_underflow_witness :
    Item.append { key := [1], exptime := 0, flags := 0, value := [66, 13, 10], cas := 0 }
        { key := [1], exptime := 0, flags := 0, value := [], cas := 0 } = none ∧
    Item.append { key := [1], exptime := 0, flags := 0, value := [66, 13, 10], cas := 0 }
        { key := [1], exptime := 0, flags := 0, value := [65, 13, 10], cas := 0 } =
      some { key := [1], exptime := 0, flags := 0, value := [65, 66, 13, 10], cas := 0 } :=
  ⟨((append_prepend_trim_underflow
      { key := [1], exptime := 0, flags := 0, value := [66, 13, 10], cas := 0 }
      { key := [1], exptime := 0, flags := 0, value := [], cas := 0 }).1 (by decide)).2,
   by
    have h := ((append_prepend_trim_underflow
      { key := [1], exptime := 0, flags := 0, value := [66, 13, 10], cas := 0 }
      { key := [1], exptime := 0, flags := 0, value := [65, 13, 10], cas := 0 }).2.1
        (by decide) (by decide)).2
    exact h.trans (by decide)⟩

/-- Claim C6 counterexample: an APPEND against an existing 0-byte value
passes every store precondition of the claim (key present, op not ADD, cas
zero) yet does not succeed: the unsigned trim underflows and the store
aborts. -/
theorem stl_store_append_underflow_cex :
    STLEngine.Store
      (cacheInsert stlEmpty [107]
        { key := [107], exptime := 0, flags := 0, value := [], cas := 0 })
      { key := [107], exptime := 0, flags := 0, value := [65], cas := 0 } .append = none :=
  rfl

/-- Claim C6 amended: ADD against an existing key fails NOT_STORED;
REPLACE, APPEND and PREPEND against an absent key fail KEY_ENOENT; a
nonzero incoming cas differing from the stored cas fails KEY_EEXISTS;
otherwise the store succeeds — except that APPEND requires the existing
value, and PREPEND the incoming value, to be at least 2 bytes long: on a
shorter value the unsigned length-minus-2 trim underflows and the store
aborts instead of succeeding. -/
theorem stl_store_semantics :
    ∀ (cache : StlCache) (it stored : Item) (op : StoreOp),
      (cache it.key = some stored →
        STLEngine.Store cache it .add = some (.not_stored, cache)) ∧
      (cache it.key = none → (op = .replace ∨ op = .append ∨ op = .prepend) →
        STLEngine.Store cache it op = some (.key_enoent, cache)) ∧
      (cache it.key = some stored → op ≠ .add → it.cas ≠ 0 → it.cas ≠ stored.cas →
        STLEngine.Store cache it op = some (.key_eexists, cache)) ∧
      (cache it.key = none → (op = .set ∨ op = .add) →
        STLEngine.Store cache it op = some (.success, cacheInsert cache it.key it)) ∧
      (cache it.key = some stored → (it.cas = 0 ∨ it.cas = stored.cas) →
        (op = .set ∨ op = .replace) →
        STLEngine.Store cache it op = some (.success, cacheInsert cache it.key it)) ∧
      (cache it.key = some stored → (it.cas = 0 ∨ it.cas = stored.cas) →
        2 ≤ stored.value.length → stored.value.length ≤ STRING_MAX_SIZE →
        STLEngine.Store cache it .append =
          some (.success, cacheInsert cache it.key
            { it with value := stored.value.take (stored.value.length - 2) ++ it.value })) ∧
      (cache it.key = some stored → (it.cas = 0 ∨ it.cas = stored.cas) →
        2 ≤ it.value.length → it.value.length ≤ STRING_MAX_SIZE →
        STLEngine.Store cache it .prepend =
          some (.success, cacheInsert cache it.key
            { it with value := it.value.take (it.value.length - 2) ++ stored.value })) := by
  intro cache it stored op
  have hguard : ∀ h : it.cas = 0 ∨ it.cas = stored.cas,
      ¬(it.cas ≠ 0 ∧ it.cas ≠ stored.cas) := by
    intro h hh
    rcases h with h | h
    · exact hh.1 h
    · exact hh.2 h
  refine ⟨?_, ?_, ?_, ?_, ?_, ?_, ?_⟩
  · intro hit
    simp [STLEngine.Store, hit]
  · intro hmiss hop
    rcases hop with h | h | h <;> subst h <;> simp [STLEngine.Store, hmiss]
  · intro hit hop hc1 hc2
    simp only [STLEngine.Store, hit]
    rw [if_neg (by simpa using hop), if_pos ⟨hc1, hc2⟩]
  · intro hmiss hop
    rcases hop with h | h <;> subst h <;> simp [STLEngine.Store, hmiss]
  · intro hit hcas hop
    rcases hop with h | h <;> subst h <;>
      simp [STLEngine.Store, hit, hguard hcas]
  · intro hit hcas h2 hmax
    simp [STLEngine.Store, hit, hguard hcas, Item.append_eq h2 hmax]
  · intro hit hcas h2 hmax
    simp [STLEngine.Store, hit, hguard hcas, Item.prepend_eq h2 hmax]

/-- Claim C6 witness: ADD on an occupied key is NOT_STORED, and an APPEND
with a 3-byte existing value succeeds with the trimmed concatenation. -/
theorem stl_store_semantics_witness :
    STLEngine.Store
        (cacheInsert stlEmpty [107]
          { key := [107], exptime := 0, flags := 0, value := [65, 13, 10], cas := 0 })
        { key := [107], exptime := 0, flags := 0, value := [66, 13, 10], cas := 0 } .add =
      some (.not_stored,
        cacheInsert stlEmpty [107]
          { key := [107], exptime := 0, flags := 0, value := [65, 13, 10], cas := 0 }) ∧
    STLEngine.Store
        (cacheInsert stlEmpty [107]
          { key := [107], exptime := 0, flags := 0, value := [65, 13, 10], cas := 0 })
        { key := [107], exptime := 0, flags := 0, value := [66, 13, 10], cas := 0 } .append =
      some (.success,
        cacheInsert
          (cacheInsert stlEmpty [107]
            { key := [107], exptime := 0, flags := 0, value := [65, 13, 10], cas := 0 })
          [107]
          { key := [107], exptime := 0, flags := 0, value := [65, 66, 13, 10], cas := 0 }) :=
  ⟨(stl_store_semantics
      (cacheInsert stlEmpty [107]
        { key := [107], exptime := 0, flags := 0, value := [65, 13, 10], cas := 0 })
      { key := [107], exptime := 0, flags := 0, value := [66, 13, 10], cas := 0 }
      { key := [107], exptime := 0, flags := 0, value := [65, 13, 10], cas := 0 } .add).1
      rfl,
   by
    have h := (stl_store_semantics
      (cacheInsert stlEmpty [107]
        { key := [107], exptime := 0, flags := 0, value := [65, 13, 10], cas := 0 })
      { key := [107], exptime := 0, flags := 0, value := [66, 13, 10], cas := 0 }
      { key := [107], exptime := 0, flags := 0, value := [65, 13, 10], cas := 0 }
      .append).2.2.2.2.2.1 rfl (Or.inl rfl) (by decide) (by decide)
    exact h.trans rfl⟩

/-- Claim C8 counterexample: PREPEND of incoming value "B\r\n" onto stored
value "A\r\n" yields "BA\r\n" — the code trims the incoming value and
leaves the stored value untrimmed — while the claim predicts the incoming
bytes followed by the trimmed stored value, "B\r\nA". -/
theorem stl_prepend_direction_cex :
    (STLEngine.Store
        (cacheInsert stlEmpty [107]
          { key := [107], exptime := 0, flags := 0, value := [65, 13, 10], cas := 0 })
        { key := [107], exptime := 0, flags := 0, value := [66, 13, 10], cas := 0 }
        .prepend).map (fun p => (p.2 [107]).map Item.value) =
      some (some [66, 65, 13, 10]) ∧
    ([66, 65, 13, 10] : List Nat) ≠ [66, 13, 10, 65] :=
  ⟨rfl, by decide⟩

/-- Claim C8 amended: a successful APPEND stores the existing value with
its trailing 2-byte line terminator trimmed, followed by the incoming
bytes; a successful PREPEND stores the incoming value with its trailing
2-byte line terminator trimmed, followed by the existing value untrimmed. -/
theorem stl_append_prepend_values :
    ∀ (cache : StlCache) (it stored : Item),
      cache it.key = some stored → (it.cas = 0 ∨ it.cas = stored.cas) →
      (2 ≤ stored.value.length → stored.value.length ≤ STRING_MAX_SIZE →
        (STLEngine.Store cache it .append).map (fun p => (p.2 it.key).map Item.value) =
          some (some (stored.value.take (stored.value.length - 2) ++ it.value))) ∧
      (2 ≤ it.value.length → it.value.length ≤ STRING_MAX_SIZE →
        (STLEngine.Store cache it .prepend).map (fun p => (p.2 it.key).map Item.value) =
          some (some (it.value.take (it.value.length - 2) ++ stored.value))) := by
  intro cache it stored hit hcas
  have hguard : ¬(it.cas ≠ 0 ∧ it.cas ≠ stored.cas) := by
    intro hh
    rcases hcas with h | h
    · exact hh.1 h
    · exact hh.2 h
  constructor
  · intro h2 hmax
    simp [STLEngine.Store, hit, hguard, Item.append_eq h2 hmax, cacheInsert]
  · intro h2 hmax
    simp [STLEngine.Store, hit, hguard, Item.prepend_eq h2 hmax, cacheInsert]

/-- Claim C8 witness: APPEND of "B\r\n" onto stored "A\r\n" stores "AB\r\n"
and PREPEND stores "BA\r\n". -/
theorem stl_append_prepend_values_witness :
    (STLEngine.Store
        (cacheInsert stlEmpty [107]
          { key := [107], exptime := 0, flags := 0, value := [65, 13, 10], cas := 0 })
        { key := [107], exptime := 0, flags := 0, value := [66, 13, 10], cas := 0 }
        .append).map (fun p => (p.2 [107]).map Item.value) =
      some (some [65, 66, 13, 10]) ∧
    (STLEngine.Store
        (cacheInsert stlEmpty [107]
          { key := [107], exptime := 0, flags := 0, value := [65, 13, 10], cas := 0 })
        { key := [107], exptime := 0, flags := 0, value := [66, 13, 10], cas := 0 }
        .prepend).map (fun p => (p.2 [107]).map Item.value) =
      some (some [66, 65, 13, 10]) := by
  have h := stl_append_prepend_values
    (cacheInsert stlEmpty [107]
      { key := [107], exptime := 0, flags := 0, value := [65, 13, 10], cas := 0 })
    { key := [107], exptime := 0, flags := 0, value := [66, 13, 10], cas := 0 }
    { key := [107], exptime := 0, flags := 0, value := [65, 13, 10], cas := 0 }
    rfl (Or.inl rfl)
  exact ⟨(h.1 (by decide) (by decide)).trans rfl,
         (h.2 (by decide) (by decide)).trans rfl⟩

/-- Claim C2 witness: a two-entry queue (one durable hit, one miss) is
notified exactly once per entry, in order, with the matching outcomes. -/
theorem reader_drain_notifies_exactly_once_witness :
    (readerDrain
        (dUpsert (fun _ => none) [107] { flags := 0, exptime := 0, hashv := 0, value := [9] })
        (fun _ => true) [(4, [107]), (6, [108])] pcEmpty).2 =
      [(4, EngineCode.success), (6, EngineCode.key_enoent)] :=
  (reader_drain_notifies_exactly_once
      (dUpsert (fun _ => none) [107] { flags := 0, exptime := 0, hashv := 0, value := [9] })
      (fun _ => true) [(4, [107]), (6, [108])] pcEmpty).trans (by decide)

/-- Claim C5 witness: with keys [98] then [97] enqueued, the drain order is
strictly ascending and covers exactly the enqueued keys. -/
theorem writer_drain_sorted_order_witness :
    List.Pairwise (fun a b => keyLt a b = true)
      (writerDrainTrace (enqueueAll
        [{ key := [98], flags := 0, exptime := 0, value := [1] },
         { key := [97], flags := 0, exptime := 0, value := [2] }]).queue) ∧
    ([97] ∈ writerDrainTrace (enqueueAll
        [{ key := [98], flags := 0, exptime := 0, value := [1] },
         { key := [97], flags := 0, exptime := 0, value := [2] }]).queue ↔
      [97] ∈ [{ key := [98], flags := 0, exptime := 0, value := [1] },
              { key := [97], flags := 0, exptime := 0, value := [2] }].map HItem.key) :=
  ⟨(writer_drain_sorted_order
      [{ key := [98], flags := 0, exptime := 0, value := [1] },
       { key := [97], flags := 0, exptime := 0, value := [2] }]).1,
   (writer_drain_sorted_order
      [{ key := [98], flags := 0, exptime := 0, value := [1] },
       { key := [97], flags := 0, exptime := 0, value := [2] }]).2 [97]⟩

/-- Claim C7 witness: a successful create returns initial and the new cas
with the decimal CRLF text stored, and two consecutive lost races consume
two invocations without completing. -/
theorem arith_create_race_semantics_witness :
    persistent_arithmetic [99] 0 true true 5 10
        [{ cached := none, allocOk := true, addRaces := false, newCas := 4 }] =
      (some { code := .success, result := some 10, cas := some 4,
              stored := some { key := [99], flags := 0, exptime := 0,
                               value := decimalText 10, cas := 4 } }, 1) ∧
    persistent_arithmetic [99] 0 true true 5 10
        (List.replicate 2 { cached := none, allocOk := true, addRaces := true, newCas := 0 }) =
      (none, 2) :=
  ⟨(arith_create_race_semantics [99] 0 true 5 10 4 []).1,
   (arith_create_race_semantics [99] 0 true 5 10 0 []).2.2.2.1 2⟩
